import Mathlib

/-!
Verification of the code-churn reporting scripts (`code_churn_v2.py` and
`scripts/code_churn.py`).

The Python string and integer primitives that the scripts rely on
(`str.split` with and without a maxsplit, `str.splitlines`, `str.strip`,
`str.startswith`, `int()`, string comparison) are modelled over `List Char`,
restricted to ASCII text (the scripts only ever feed them git output and
ASCII literals).  Subprocess calls are modelled by an abstract environment
`run : List String → Option RunResult`; `none` stands for a raised
exception, `some r` for a completed process with exit status and stdout.
-/

namespace CodeTools

/-- The single-quote delimiter character (code point 39). -/
def quoteC : Char := Char.ofNat 39

/-- The tab character separating numstat fields. -/
def tabC : Char := Char.ofNat 9

/-- The newline character. -/
def nlC : Char := Char.ofNat 10

/-- The quote delimiter as a one-character string. -/
def quoteS : String := String.mk [quoteC]

/-- Split a character list at the first character satisfying `p`:
`none` when no such character occurs, otherwise the pieces before and
after it. -/
def breakAtP (p : Char → Bool) : List Char → Option (List Char × List Char)
  | [] => none
  | x :: xs =>
    if p x then some ([], xs)
    else
      match breakAtP p xs with
      | none => none
      | some q => some (x :: q.1, q.2)

/-- Python `s.split(sep, maxsplit)` on character lists: split at the first
`n` separator characters, each remaining piece kept verbatim. -/
def splitMaxP (p : Char → Bool) : Nat → List Char → List (List Char)
  | 0, s => [s]
  | n + 1, s =>
    match breakAtP p s with
    | none => [s]
    | some q => q.1 :: splitMaxP p n q.2

/-- Python `s.split(sep)` (no maxsplit): since a list of length `m` contains
at most `m` separators, `splitMaxP` with fuel `m` performs every split. -/
def splitAllP (p : Char → Bool) (s : List Char) : List (List Char) :=
  splitMaxP p s.length s

/-- Python `line.split("\t")`. -/
def splitTab (line : String) : List String :=
  (splitAllP (fun c => c = tabC) line.data).map String.mk

/-- Python `s.strip(c)` for a single strip character: remove every leading
and trailing occurrence of `c`. -/
def pyStripChar (c : Char) (s : String) : String :=
  String.mk (((s.data.dropWhile (· = c)).reverse.dropWhile (· = c)).reverse)

/-- Python `s.strip()`: remove leading and trailing whitespace. -/
def pyStrip (s : String) : String :=
  String.mk (((s.data.dropWhile Char.isWhitespace).reverse.dropWhile
    Char.isWhitespace).reverse)

/-- Python `s.split()` (no argument): split on whitespace runs, dropping
empty pieces. -/
def pySplitWs (s : String) : List String :=
  ((splitAllP Char.isWhitespace s.data).filter (· ≠ [])).map String.mk

/-- Python `s.splitlines()` restricted to `\n` line boundaries (the only
terminator in decoded git output): like splitting on `\n` except that a
trailing newline does not produce a final empty line, and the empty string
has no lines. -/
def splitlines (s : String) : List String :=
  let parts := (splitAllP (fun c => c = nlC) s.data).map String.mk
  match parts.getLast? with
  | some "" => parts.dropLast
  | _ => parts

/-- The Python startswith test against the quote delimiter: the first
character of the line is the quote. -/
def startsQuote (line : String) : Bool := line.data.head? = some quoteC

/-- Decimal value of a digit list (digits only). -/
def digitsToNat (l : List Char) : Nat :=
  l.foldl (fun acc c => 10 * acc + (c.toNat - 48)) 0

/-- Tail of the Python integer-literal digit part: a digit run in which each
underscore is followed by a digit (so underscores only stand between
digits). -/
def digitTail : List Char → Bool
  | [] => true
  | c :: cs =>
    if c.isDigit then digitTail cs
    else if c = Char.ofNat 95 then
      match cs with
      | [] => false
      | d :: ds => d.isDigit && digitTail ds
    else false

/-- Python integer-literal digit part: nonempty, starts with a digit,
underscores only between digits. -/
def digitPart : List Char → Bool
  | [] => false
  | c :: cs => c.isDigit && digitTail cs

/-- Python `int(s)` for ASCII strings: optional surrounding whitespace, an
optional sign, then a digit part with optional single underscores between
digits.  `none` models a raised `ValueError`. -/
def pyIntOfStr (s : String) : Option Int :=
  let cs := ((s.data.dropWhile Char.isWhitespace).reverse.dropWhile
    Char.isWhitespace).reverse
  match cs with
  | [] => none
  | c :: rest =>
    let neg : Bool := c = Char.ofNat 45
    let signed : Bool := neg || c = Char.ofNat 43
    let body := if signed then rest else cs
    if digitPart body then
      let n : Int := Int.ofNat (digitsToNat (body.filter Char.isDigit))
      some (if neg then -n else n)
    else none

/-- `safe_int` from both scripts: `int(value)`, with `ValueError` mapped
to `0`. -/
def safe_int (value : String) : Int := (pyIntOfStr value).getD 0

/-- Python string `<=`: lexicographic comparison of code points. -/
def charsLe : List Char → List Char → Bool
  | [], _ => true
  | _ :: _, [] => false
  | a :: as, b :: bs =>
    if a.toNat < b.toNat then true
    else if b.toNat < a.toNat then false
    else charsLe as bs

/-- Python string comparison used by `list.sort(key=...)`. -/
def pyStrLe (a b : String) : Bool := charsLe a.data b.data

/-- Result of a completed subprocess: exit status and decoded stdout. -/
structure RunResult where
  returncode : Int
  stdout : String
deriving DecidableEq

/-- A subprocess environment: `none` models a raised exception. -/
def RunEnv : Type := List String → Option RunResult

/-- Sum `safe_int(added) + safe_int(removed)` over every line of a diff
output that splits into exactly three tab-separated fields (the loop at
the end of `get_modified_lines`). -/
def sumNumstat (diff_output : String) : Int :=
  (splitlines diff_output).foldl
    (fun acc line =>
      match splitTab line with
      | [added, removed, _] => acc + safe_int added + safe_int removed
      | _ => acc)
    0

/-- `["git", "show", "--no-patch", "--pretty=%P", commit_id]`. -/
def merge_check_command (commit_id : String) : List String :=
  ["git", "show", "--no-patch", "--pretty=%P", commit_id]

/-- The diff command for a merge commit: `commit^1..commit^2`. -/
def two_parent_diff_command (commit_id : String) : List String :=
  ["git", "diff", "--numstat", commit_id ++ "^1.." ++ commit_id ++ "^2"]

/-- The diff command for a non-merge commit: `commit^`. -/
def single_parent_diff_command (commit_id : String) : List String :=
  ["git", "diff", "--numstat", commit_id ++ "^"]

/-- `result.stdout.strip()` followed by `.split()`: the parent list of
the commit as whitespace-separated words. -/
def parentsOf (stdout : String) : List String := pySplitWs (pyStrip stdout)

/-- The local `diff_command` chosen inside `get_modified_lines`: the
two-parent diff when the parent list has exactly two entries, the
single-parent diff otherwise. -/
def diff_command_for (commit_id stdout : String) : List String :=
  if (parentsOf stdout).length = 2 then two_parent_diff_command commit_id
  else single_parent_diff_command commit_id

/-- `get_modified_lines` from `code_churn_v2.py`, over an abstract
subprocess environment.  Every failure path (raised exception, non-zero
exit of the parent query or of the diff) returns `0`. -/
def get_modified_lines (run : RunEnv) (commit_id : String) : Int :=
  match run (merge_check_command commit_id) with
  | none => 0
  | some result =>
    if result.returncode ≠ 0 then 0
    else
      match run (diff_command_for commit_id result.stdout) with
      | none => 0
      | some result2 =>
        if result2.returncode ≠ 0 then 0
        else sumNumstat result2.stdout

/-- The git-log command built by `get_git_log` in `code_churn_v2.py`. -/
def git_log_command (branch start_date end_date : String) : List String :=
  ["git", "log", branch, "--since", start_date, "--until", end_date,
   "--pretty=format:" ++ quoteS ++ "%H,%ad,%s" ++ quoteS, "--numstat"]

/-- `get_git_log` from `code_churn_v2.py`: on non-zero exit status the
function raises (modelled by `Except.error`); otherwise it returns the
decoded stdout. -/
def get_git_log (run : RunEnv) (branch start_date end_date : String) :
    Except String String :=
  match run (git_log_command branch start_date end_date) with
  | none => .error "subprocess error"
  | some result =>
    if result.returncode ≠ 0 then .error "Error running git command"
    else .ok result.stdout

/-- The three header fields extracted by `parse_git_log`. -/
structure CommitInfo where
  commit_id : String
  date : String
  message : String
deriving DecidableEq

/-- Parse a commit header line: strip the quote delimiter from both ends,
split at the first three commas, then look up `parts[0]`, `parts[1]`,
`parts[2]`.  `none` models the `IndexError` raised when the split yields
fewer than three parts. -/
def parseHeader (line : String) : Option CommitInfo :=
  let parts :=
    (splitMaxP (fun c => c = ',') 3 (pyStripChar quoteC line).data).map
      String.mk
  match parts with
  | p0 :: p1 :: p2 :: _ => some ⟨p0, p1, p2⟩
  | _ => none

/-- The added/removed contribution of one non-header line: the pair of
safely parsed counts when the line has exactly three tab-separated fields,
`(0, 0)` otherwise (a skipped malformed line contributes nothing). -/
def statDelta (line : String) : Int × Int :=
  match splitTab line with
  | [added, removed, _] => (safe_int added, safe_int removed)
  | _ => (0, 0)

/-- Total added count of a list of stat lines. -/
def sumAdded (stats : List String) : Int :=
  (stats.map (fun l => (statDelta l).1)).sum

/-- Total removed count of a list of stat lines. -/
def sumRemoved (stats : List String) : Int :=
  (stats.map (fun l => (statDelta l).2)).sum

/-- The number of header lines in an input. -/
def countHeaders (ls : List String) : Nat := ls.countP (fun l => startsQuote l)

/-- A block of the input grammar of the spec: one header line followed by
its stat lines. -/
def blockLines (b : String × List String) : List String := b.1 :: b.2

/-- A well-formed block: the first line is a header whose delimiter-stripped
content has at least three comma-separated fields, and the remaining lines
are not headers. -/
def WfBlock (b : String × List String) : Prop :=
  startsQuote b.1 = true ∧ (parseHeader b.1).isSome = true ∧
    ∀ l ∈ b.2, startsQuote l = false

/-- `1` when a commit accumulator is open, `0` otherwise: the number of
records the final flush will add. -/
def infoCount : Option CommitInfo → Nat
  | none => 0
  | some _ => 1

instance (b : String × List String) : Decidable (WfBlock b) := by
  unfold WfBlock
  infer_instance

namespace ChurnV2

/-- A finished commit record of `code_churn_v2.py` (with the
merge-aware `modified_lines` column). -/
structure CommitRecord where
  commit_id : String
  date : String
  message : String
  added_lines : Int
  removed_lines : Int
  modified_lines : Int
deriving DecidableEq

/-- The loop state of `parse_git_log`: the emitted records, the current
commit header (`none` for the initial empty dict) and the running
added/removed totals. -/
structure ParseState where
  commit_data : List CommitRecord
  commit_info : Option CommitInfo
  total_added : Int
  total_removed : Int
deriving DecidableEq

/-- Finalize the current accumulator: if a header is open, append its
record (totals plus `get_modified_lines`, abstracted as `getMod`) to the
emitted records; the code runs this both on seeing a new header and at end
of input. -/
def flushInfo (getMod : String → Int) (st : ParseState) : List CommitRecord :=
  match st.commit_info with
  | none => st.commit_data
  | some info =>
    st.commit_data ++
      [⟨info.commit_id, info.date, info.message, st.total_added,
        st.total_removed, getMod info.commit_id⟩]

/-- One iteration of the `parse_git_log` loop of `code_churn_v2.py`.
`none` models an uncaught exception (the header `IndexError`). -/
def parseLine (getMod : String → Int) (st : ParseState) (line : String) :
    Option ParseState :=
  if startsQuote line then
    match parseHeader line with
    | none => none
    | some info => some ⟨flushInfo getMod st, some info, 0, 0⟩
  else
    match splitTab line with
    | [added, removed, _] =>
      some { st with
        total_added := st.total_added + safe_int added,
        total_removed := st.total_removed + safe_int removed }
    | _ => some st

/-- The `parse_git_log` loop over a list of lines, from a given state. -/
def parseLinesFrom (getMod : String → Int) (st : ParseState) :
    List String → Option ParseState
  | [] => some st
  | l :: ls =>
    match parseLine getMod st l with
    | none => none
    | some st2 => parseLinesFrom getMod st2 ls

/-- The loop from a given state followed by the final flush. -/
def runFrom (getMod : String → Int) (st : ParseState) (ls : List String) :
    Option (List CommitRecord) :=
  (parseLinesFrom getMod st ls).map (flushInfo getMod)

/-- `parse_git_log` of `code_churn_v2.py` on a list of lines: run the loop
from the initial state and flush the last accumulator. -/
def parseLines (getMod : String → Int) (ls : List String) :
    Option (List CommitRecord) :=
  runFrom getMod ⟨[], none, 0, 0⟩ ls

/-- `parse_git_log` of `code_churn_v2.py`: split the raw output into lines
and run the loop. -/
def parse_git_log (getMod : String → Int) (git_log_output : String) :
    Option (List CommitRecord) :=
  parseLines getMod (splitlines git_log_output)

/-- Spec-side description of the record a well-formed block should produce
(§3/§4.3 of the spec): the three header fields, the per-file sums of its
own stat lines, and the merge-aware count for its commit id.  Stated from
the words of the spec for the refinement comparison with `parse_git_log`. -/
def specBlockRecord (getMod : String → Int) (b : String × List String) :
    CommitRecord :=
  match parseHeader b.1 with
  | some info =>
    ⟨info.commit_id, info.date, info.message, sumAdded b.2, sumRemoved b.2,
     getMod info.commit_id⟩
  | none => ⟨"", "", "", 0, 0, 0⟩

/-- The CSV header row written by `save_to_csv` in `code_churn_v2.py`. -/
def csvHeader : List String :=
  ["commit_id", "date", "message", "added_lines", "removed_lines",
   "modified_lines"]

/-- The comparison `list.sort(key=lambda x: x["date"])` sorts by. -/
def dateRel (a b : CommitRecord) : Prop := pyStrLe a.date b.date = true

instance : DecidableRel dateRel :=
  fun a b => instDecidableEqBool (pyStrLe a.date b.date) true

/-- The row written for one commit record. -/
def csvRow (c : CommitRecord) : List String :=
  [c.commit_id, c.date, c.message, toString c.added_lines,
   toString c.removed_lines, toString c.modified_lines]

/-- `save_to_csv` of `code_churn_v2.py`, modelled as the list of rows it
writes: sort the records ascending by date (the stable Python list sort,
modelled by a stable insertion sort), then the header row followed by one
row per record. -/
def save_to_csv (commit_data : List CommitRecord) : List (List String) :=
  let sorted := List.insertionSort dateRel commit_data
  csvHeader :: sorted.map csvRow

/-- `main` of `code_churn_v2.py`, modelled as the rows of the CSV it
writes: fetch the log, parse it (the merge counter running in the same
environment), save.  `none` models the `except` branch that logs
`Script failed` and writes nothing. -/
def main_run (run : RunEnv) (branch start_date end_date : String) :
    Option (List (List String)) :=
  match get_git_log run branch start_date end_date with
  | .error _ => none
  | .ok git_log_output =>
    match parse_git_log (get_modified_lines run) git_log_output with
    | none => none
    | some commit_data => some (save_to_csv commit_data)

end ChurnV2

namespace ChurnScript

/-- A finished commit record of `scripts/code_churn.py` (no
`modified_lines` column). -/
structure CommitRecord where
  commit_id : String
  date : String
  message : String
  added_lines : Int
  removed_lines : Int
deriving DecidableEq

/-- The loop state of `parse_git_log` in `scripts/code_churn.py`. -/
structure ParseState where
  commit_data : List CommitRecord
  commit_info : Option CommitInfo
  total_added : Int
  total_removed : Int
deriving DecidableEq

/-- Finalize the current accumulator of `scripts/code_churn.py`. -/
def flushInfo (st : ParseState) : List CommitRecord :=
  match st.commit_info with
  | none => st.commit_data
  | some info =>
    st.commit_data ++
      [⟨info.commit_id, info.date, info.message, st.total_added,
        st.total_removed⟩]

/-- One iteration of the `parse_git_log` loop of `scripts/code_churn.py`. -/
def parseLine (st : ParseState) (line : String) : Option ParseState :=
  if startsQuote line then
    match parseHeader line with
    | none => none
    | some info => some ⟨flushInfo st, some info, 0, 0⟩
  else
    match splitTab line with
    | [added, removed, _] =>
      some { st with
        total_added := st.total_added + safe_int added,
        total_removed := st.total_removed + safe_int removed }
    | _ => some st

/-- The loop of `scripts/code_churn.py` over a list of lines. -/
def parseLinesFrom (st : ParseState) : List String → Option ParseState
  | [] => some st
  | l :: ls =>
    match parseLine st l with
    | none => none
    | some st2 => parseLinesFrom st2 ls

/-- The loop of `scripts/code_churn.py` from a given state followed by the
final flush. -/
def runFrom (st : ParseState) (ls : List String) :
    Option (List CommitRecord) :=
  (parseLinesFrom st ls).map flushInfo

/-- `parse_git_log` of `scripts/code_churn.py` on a list of lines. -/
def parseLines (ls : List String) : Option (List CommitRecord) :=
  runFrom ⟨[], none, 0, 0⟩ ls

/-- `parse_git_log` of `scripts/code_churn.py`. -/
def parse_git_log (git_log_output : String) : Option (List CommitRecord) :=
  parseLines (splitlines git_log_output)

/-- Spec-side description of the record a well-formed block should produce
in the `scripts/code_churn.py` variant: the three header fields and the
per-file sums of its own stat lines.  Stated from the words of the spec
for the refinement comparison with `parse_git_log`. -/
def specBlockRecord (b : String × List String) : CommitRecord :=
  match parseHeader b.1 with
  | some info =>
    ⟨info.commit_id, info.date, info.message, sumAdded b.2, sumRemoved b.2⟩
  | none => ⟨"", "", "", 0, 0⟩

/-- The CSV header row of `scripts/code_churn.py`. -/
def csvHeader : List String :=
  ["commit_id", "date", "message", "added_lines", "removed_lines"]

/-- The row written for one commit record. -/
def csvRow (c : CommitRecord) : List String :=
  [c.commit_id, c.date, c.message, toString c.added_lines,
   toString c.removed_lines]

/-- `save_to_csv` of `scripts/code_churn.py`, modelled as the list of rows
it writes: the header row followed by one row per record, in the order the
records are given (this variant performs no sort). -/
def save_to_csv (commit_data : List CommitRecord) : List (List String) :=
  csvHeader :: commit_data.map csvRow

end ChurnScript

/-! ## Order properties of the modelled Python string comparison -/

theorem charsLe_total : ∀ a b : List Char,
    charsLe a b = true ∨ charsLe b a = true
  | [], _ => Or.inl rfl
  | _ :: _, [] => Or.inr rfl
  | a :: as, b :: bs => by
    simp only [charsLe]
    rcases Nat.lt_trichotomy a.toNat b.toNat with h | h | h
    · left
      simp [h]
    · have h1 : ¬ a.toNat < b.toNat := by omega
      have h2 : ¬ b.toNat < a.toNat := by omega
      simpa [h1, h2] using charsLe_total as bs
    · right
      simp [h]

theorem charsLe_trans : ∀ a b c : List Char,
    charsLe a b = true → charsLe b c = true → charsLe a c = true
  | [], _, _, _, _ => rfl
  | _ :: _, [], _, h1, _ => by simp [charsLe] at h1
  | _ :: _, _ :: _, [], _, h2 => by simp [charsLe] at h2
  | a :: as, b :: bs, c :: cs, h1, h2 => by
    simp only [charsLe] at h1 h2 ⊢
    by_cases hab : a.toNat < b.toNat <;> by_cases hba : b.toNat < a.toNat <;>
      by_cases hbc : b.toNat < c.toNat <;> by_cases hcb : c.toNat < b.toNat <;>
      by_cases hac : a.toNat < c.toNat <;> by_cases hca : c.toNat < a.toNat <;>
      simp only [hab, hba, hbc, hcb, hac, hca, if_true, if_false] at h1 h2 ⊢ <;>
      first
      | rfl
      | omega
      | exact h1
      | exact h2
      | simp at h1
      | simp at h2
      | exact charsLe_trans as bs cs h1 h2

theorem pyStrLe_total (a b : String) :
    pyStrLe a b = true ∨ pyStrLe b a = true :=
  charsLe_total a.data b.data

theorem pyStrLe_trans {a b c : String} (h1 : pyStrLe a b = true)
    (h2 : pyStrLe b c = true) : pyStrLe a c = true :=
  charsLe_trans a.data b.data c.data h1 h2

/-- A line that does not split into exactly three tab-separated fields
contributes `(0, 0)`. -/
theorem statDelta_not3 {l : String} (h : (splitTab l).length ≠ 3) :
    statDelta l = (0, 0) := by
  cases hm : splitTab l with
  | nil => simp [statDelta, hm]
  | cons a t1 =>
    cases t1 with
    | nil => simp [statDelta, hm]
    | cons b t2 =>
      cases t2 with
      | nil => simp [statDelta, hm]
      | cons c t3 =>
        cases t3 with
        | nil =>
          rw [hm] at h
          simp at h
        | cons d t4 => simp [statDelta, hm]

/-! ## Lemmas about the `code_churn_v2.py` parser loop -/

namespace ChurnV2

theorem parseLine_header (getMod : String → Int) (st : ParseState)
    (l : String) (info : CommitInfo) (hq : startsQuote l = true)
    (hinfo : parseHeader l = some info) :
    parseLine getMod st l = some ⟨flushInfo getMod st, some info, 0, 0⟩ := by
  simp [parseLine, hq, hinfo]

theorem parseLine_bad_header (getMod : String → Int) (st : ParseState)
    (l : String) (hq : startsQuote l = true) (hn : parseHeader l = none) :
    parseLine getMod st l = none := by
  simp [parseLine, hq, hn]

theorem parseLine_stat (getMod : String → Int) (st : ParseState) (l : String)
    (h : startsQuote l = false) :
    parseLine getMod st l =
      some ⟨st.commit_data, st.commit_info,
        st.total_added + (statDelta l).1,
        st.total_removed + (statDelta l).2⟩ := by
  cases hm : splitTab l with
  | nil => simp [parseLine, statDelta, h, hm]
  | cons a t1 =>
    cases t1 with
    | nil => simp [parseLine, statDelta, h, hm]
    | cons b t2 =>
      cases t2 with
      | nil => simp [parseLine, statDelta, h, hm]
      | cons c t3 =>
        cases t3 with
        | nil => simp [parseLine, statDelta, h, hm]
        | cons d t4 => simp [parseLine, statDelta, h, hm]

theorem parseLinesFrom_append (getMod : String → Int) (st : ParseState)
    (xs ys : List String) :
    parseLinesFrom getMod st (xs ++ ys) =
      (parseLinesFrom getMod st xs).bind
        (fun st2 => parseLinesFrom getMod st2 ys) := by
  induction xs generalizing st with
  | nil => simp [parseLinesFrom]
  | cons l ls ih =>
    simp only [List.cons_append, parseLinesFrom]
    cases parseLine getMod st l with
    | none => simp
    | some st2 => simp [ih]

theorem runFrom_cons (getMod : String → Int) {st st2 : ParseState}
    {l : String} (h : parseLine getMod st l = some st2) (ls : List String) :
    runFrom getMod st (l :: ls) = runFrom getMod st2 ls := by
  simp [runFrom, parseLinesFrom, h]

theorem runFrom_append (getMod : String → Int) {st st2 : ParseState}
    {xs : List String} (h : parseLinesFrom getMod st xs = some st2)
    (ys : List String) :
    runFrom getMod st (xs ++ ys) = runFrom getMod st2 ys := by
  simp [runFrom, parseLinesFrom_append, h]

theorem parseLinesFrom_stats (getMod : String → Int) :
    ∀ (stats : List String), (∀ l ∈ stats, startsQuote l = false) →
    ∀ (cd : List CommitRecord) (ci : Option CommitInfo) (ta tr : Int),
    parseLinesFrom getMod ⟨cd, ci, ta, tr⟩ stats =
      some ⟨cd, ci, ta + sumAdded stats, tr + sumRemoved stats⟩
  | [], _, cd, ci, ta, tr => by simp [parseLinesFrom, sumAdded, sumRemoved]
  | l :: ls, h, cd, ci, ta, tr => by
    have hl : startsQuote l = false := h l (List.mem_cons_self l ls)
    have hrest : ∀ x ∈ ls, startsQuote x = false :=
      fun x hx => h x (List.mem_cons_of_mem l hx)
    simp only [parseLinesFrom, parseLine_stat getMod _ l hl]
    rw [parseLinesFrom_stats getMod ls hrest]
    simp [sumAdded, sumRemoved, add_assoc]

theorem runFrom_blocks (getMod : String → Int) :
    ∀ (blocks : List (String × List String)),
    (∀ b ∈ blocks, WfBlock b) →
    ∀ (cd : List CommitRecord) (ci : Option CommitInfo) (ta tr : Int),
    runFrom getMod ⟨cd, ci, ta, tr⟩ (blocks.flatMap blockLines) =
      some (flushInfo getMod ⟨cd, ci, ta, tr⟩ ++
        blocks.map (specBlockRecord getMod))
  | [], _, cd, ci, ta, tr => by simp [runFrom, parseLinesFrom]
  | (h0, stats) :: bs, hwf, cd, ci, ta, tr => by
    obtain ⟨hq, hsome, hstats⟩ := hwf _ (List.mem_cons_self _ bs)
    obtain ⟨info, hinfo⟩ := Option.isSome_iff_exists.mp hsome
    have hwf2 : ∀ b ∈ bs, WfBlock b :=
      fun b hb => hwf b (List.mem_cons_of_mem _ hb)
    have hflat : ((h0, stats) :: bs).flatMap blockLines =
        h0 :: (stats ++ bs.flatMap blockLines) := by
      simp [blockLines]
    rw [hflat]
    rw [runFrom_cons getMod (parseLine_header getMod _ h0 info hq hinfo)]
    rw [runFrom_append getMod (parseLinesFrom_stats getMod stats hstats _ _ _ _)]
    rw [runFrom_blocks getMod bs hwf2]
    have hspec : specBlockRecord getMod (h0, stats) =
        ⟨info.commit_id, info.date, info.message, sumAdded stats,
         sumRemoved stats, getMod info.commit_id⟩ := by
      simp [specBlockRecord, hinfo]
    simp [flushInfo, hspec]

theorem flushInfo_length (getMod : String → Int) (st : ParseState) :
    (flushInfo getMod st).length =
      st.commit_data.length + infoCount st.commit_info := by
  cases st with
  | mk cd ci ta tr => cases ci <;> simp [flushInfo, infoCount]

theorem parseLinesFrom_count (getMod : String → Int) :
    ∀ (ls : List String),
    (∀ l ∈ ls, startsQuote l = true → (parseHeader l).isSome = true) →
    ∀ (st : ParseState),
    ∃ st2, parseLinesFrom getMod st ls = some st2 ∧
      st2.commit_data.length + infoCount st2.commit_info =
        st.commit_data.length + infoCount st.commit_info + countHeaders ls
  | [], _, st => ⟨st, rfl, by simp [countHeaders]⟩
  | l :: ls, h, st => by
    have hrest : ∀ x ∈ ls, startsQuote x = true → (parseHeader x).isSome = true :=
      fun x hx => h x (List.mem_cons_of_mem l hx)
    cases hq : startsQuote l with
    | true =>
      obtain ⟨info, hinfo⟩ :=
        Option.isSome_iff_exists.mp (h l (List.mem_cons_self l ls) hq)
      obtain ⟨st2, hrun, hlen⟩ := parseLinesFrom_count getMod ls hrest
        ⟨flushInfo getMod st, some info, 0, 0⟩
      refine ⟨st2, ?_, ?_⟩
      · simp only [parseLinesFrom, parseLine_header getMod st l info hq hinfo]
        exact hrun
      · rw [hlen]
        simp only [flushInfo_length]
        simp [infoCount, countHeaders, List.countP_cons, hq]
        omega
    | false =>
      obtain ⟨st2, hrun, hlen⟩ := parseLinesFrom_count getMod ls hrest
        ⟨st.commit_data, st.commit_info, st.total_added + (statDelta l).1,
         st.total_removed + (statDelta l).2⟩
      refine ⟨st2, ?_, ?_⟩
      · simp only [parseLinesFrom, parseLine_stat getMod st l hq]
        exact hrun
      · rw [hlen]
        simp [countHeaders, List.countP_cons, hq]

theorem parseLinesFrom_bad_header (getMod : String → Int) :
    ∀ (ls : List String) (st : ParseState),
    (∃ l ∈ ls, startsQuote l = true ∧ parseHeader l = none) →
    parseLinesFrom getMod st ls = none
  | [], _, h => absurd h (by simp)
  | l :: ls, st, h => by
    obtain ⟨x, hx, hq, hn⟩ := h
    rcases List.mem_cons.mp hx with heq | hmem
    · subst heq
      simp only [parseLinesFrom, parseLine_bad_header getMod st x hq hn]
    · simp only [parseLinesFrom]
      cases hstep : parseLine getMod st l with
      | none => simp
      | some st2 =>
        simp only []
        exact parseLinesFrom_bad_header getMod ls st2 ⟨x, hmem, hq, hn⟩

theorem runFrom_resets (getMod : String → Int) :
    ∀ (ls : List String) (cd : List CommitRecord) (ta tr ta2 tr2 : Int),
    runFrom getMod ⟨cd, none, ta, tr⟩ ls = runFrom getMod ⟨cd, none, ta2, tr2⟩ ls
  | [], cd, ta, tr, ta2, tr2 => by simp [runFrom, parseLinesFrom, flushInfo]
  | l :: ls, cd, ta, tr, ta2, tr2 => by
    cases hq : startsQuote l with
    | true =>
      cases hinfo : parseHeader l with
      | none =>
        simp [runFrom, parseLinesFrom, parseLine_bad_header getMod _ l hq hinfo]
      | some info =>
        rw [runFrom_cons getMod (parseLine_header getMod _ l info hq hinfo),
          runFrom_cons getMod (parseLine_header getMod _ l info hq hinfo)]
        rfl
    | false =>
      rw [runFrom_cons getMod (parseLine_stat getMod _ l hq),
        runFrom_cons getMod (parseLine_stat getMod _ l hq)]
      exact runFrom_resets getMod ls cd _ _ _ _

end ChurnV2

/-! ## Lemmas about the `scripts/code_churn.py` parser loop -/

namespace ChurnScript

theorem parseLine_headerS (st : ParseState) (l : String) (info : CommitInfo)
    (hq : startsQuote l = true) (hinfo : parseHeader l = some info) :
    parseLine st l = some ⟨flushInfo st, some info, 0, 0⟩ := by
  simp [parseLine, hq, hinfo]

theorem parseLine_statS (st : ParseState) (l : String)
    (h : startsQuote l = false) :
    parseLine st l =
      some ⟨st.commit_data, st.commit_info,
        st.total_added + (statDelta l).1,
        st.total_removed + (statDelta l).2⟩ := by
  cases hm : splitTab l with
  | nil => simp [parseLine, statDelta, h, hm]
  | cons a t1 =>
    cases t1 with
    | nil => simp [parseLine, statDelta, h, hm]
    | cons b t2 =>
      cases t2 with
      | nil => simp [parseLine, statDelta, h, hm]
      | cons c t3 =>
        cases t3 with
        | nil => simp [parseLine, statDelta, h, hm]
        | cons d t4 => simp [parseLine, statDelta, h, hm]

theorem parseLinesFrom_appendS (st : ParseState) (xs ys : List String) :
    parseLinesFrom st (xs ++ ys) =
      (parseLinesFrom st xs).bind (fun st2 => parseLinesFrom st2 ys) := by
  induction xs generalizing st with
  | nil => simp [parseLinesFrom]
  | cons l ls ih =>
    simp only [List.cons_append, parseLinesFrom]
    cases parseLine st l with
    | none => simp
    | some st2 => simp [ih]

theorem runFrom_consS {st st2 : ParseState} {l : String}
    (h : parseLine st l = some st2) (ls : List String) :
    runFrom st (l :: ls) = runFrom st2 ls := by
  simp [runFrom, parseLinesFrom, h]

theorem runFrom_appendS {st st2 : ParseState} {xs : List String}
    (h : parseLinesFrom st xs = some st2) (ys : List String) :
    runFrom st (xs ++ ys) = runFrom st2 ys := by
  simp [runFrom, parseLinesFrom_appendS, h]

theorem parseLinesFrom_statsS :
    ∀ (stats : List String), (∀ l ∈ stats, startsQuote l = false) →
    ∀ (cd : List CommitRecord) (ci : Option CommitInfo) (ta tr : Int),
    parseLinesFrom ⟨cd, ci, ta, tr⟩ stats =
      some ⟨cd, ci, ta + sumAdded stats, tr + sumRemoved stats⟩
  | [], _, cd, ci, ta, tr => by simp [parseLinesFrom, sumAdded, sumRemoved]
  | l :: ls, h, cd, ci, ta, tr => by
    have hl : startsQuote l = false := h l (List.mem_cons_self l ls)
    have hrest : ∀ x ∈ ls, startsQuote x = false :=
      fun x hx => h x (List.mem_cons_of_mem l hx)
    simp only [parseLinesFrom, parseLine_statS _ l hl]
    rw [parseLinesFrom_statsS ls hrest]
    simp [sumAdded, sumRemoved, add_assoc]

theorem runFrom_blocksS :
    ∀ (blocks : List (String × List String)),
    (∀ b ∈ blocks, WfBlock b) →
    ∀ (cd : List CommitRecord) (ci : Option CommitInfo) (ta tr : Int),
    runFrom ⟨cd, ci, ta, tr⟩ (blocks.flatMap blockLines) =
      some (flushInfo ⟨cd, ci, ta, tr⟩ ++ blocks.map specBlockRecord)
  | [], _, cd, ci, ta, tr => by simp [runFrom, parseLinesFrom]
  | (h0, stats) :: bs, hwf, cd, ci, ta, tr => by
    obtain ⟨hq, hsome, hstats⟩ := hwf _ (List.mem_cons_self _ bs)
    obtain ⟨info, hinfo⟩ := Option.isSome_iff_exists.mp hsome
    have hwf2 : ∀ b ∈ bs, WfBlock b :=
      fun b hb => hwf b (List.mem_cons_of_mem _ hb)
    have hflat : ((h0, stats) :: bs).flatMap blockLines =
        h0 :: (stats ++ bs.flatMap blockLines) := by
      simp [blockLines]
    rw [hflat]
    rw [runFrom_consS (parseLine_headerS _ h0 info hq hinfo)]
    rw [runFrom_appendS (parseLinesFrom_statsS stats hstats _ _ _ _)]
    rw [runFrom_blocksS bs hwf2]
    have hspec : specBlockRecord (h0, stats) =
        ⟨info.commit_id, info.date, info.message, sumAdded stats,
         sumRemoved stats⟩ := by
      simp [specBlockRecord, hinfo]
    simp [flushInfo, hspec]

end ChurnScript

/-! ## Claims -/

/-- C1: the claim says the header split caps at the first two commas and
takes the entire remainder (further commas included) as the message.  The
code instead splits `"abc,2024-01-01,fix: a, b"` at the first THREE commas
(`split(",", 3)`) and takes the third field, so the message is truncated to
`"fix: a"` and the text after the first comma of the message is
dropped. -/
theorem C1_header_message_truncated :
    parseHeader (quoteS ++ "abc,2024-01-01,fix: a, b" ++ quoteS) =
      some ⟨"abc", "2024-01-01", "fix: a"⟩ ∧
    ChurnV2.parse_git_log (fun _ => 0)
        (quoteS ++ "abc,2024-01-01,fix: a, b" ++ quoteS) =
      some [⟨"abc", "2024-01-01", "fix: a", 0, 0, 0⟩] ∧
    "fix: a" ≠ "fix: a, b" :=
  ⟨by decide, by decide, by decide⟩

/-- C9: well-formed (or any non-header) lines before the first header
contribute to no record: parsing `pre ++ ls` with a header-free preamble
`pre` gives exactly the records of `ls`, because the totals are reset when
the first header is parsed and an empty accumulator is never emitted. -/
theorem C9_preamble_contributes_nothing :
    ∀ (getMod : String → Int) (pre ls : List String),
    (∀ l ∈ pre, startsQuote l = false) →
    ChurnV2.parseLines getMod (pre ++ ls) = ChurnV2.parseLines getMod ls := by
  intro getMod pre ls hpre
  unfold ChurnV2.parseLines
  rw [ChurnV2.runFrom_append getMod
    (ChurnV2.parseLinesFrom_stats getMod pre hpre [] none 0 0)]
  exact ChurnV2.runFrom_resets getMod ls [] (0 + sumAdded pre)
    (0 + sumRemoved pre) 0 0

/-- Witness for C9 at a concrete preamble and input. -/
theorem C9_witness :
    (∀ l ∈ ["1\t2\tf"], startsQuote l = false) ∧
    ChurnV2.parseLines (fun _ => 0) (["1\t2\tf"] ++ [quoteS ++ "c,d,m"]) =
      ChurnV2.parseLines (fun _ => 0) [quoteS ++ "c,d,m"] :=
  ⟨by decide,
   C9_preamble_contributes_nothing (fun _ => 0) ["1\t2\tf"] [quoteS ++ "c,d,m"]
     (by decide)⟩

/-- C10: a header line whose delimiter-stripped content has fewer than
three comma-separated parts makes `parse_git_log` fail (Python raises an
`IndexError` at `parts[2]`); in the total embedding the header parse and
therefore the whole parse yield no value. -/
theorem C10_short_header_aborts_parse :
    ∀ (getMod : String → Int) (ls : List String) (l : String), l ∈ ls →
    startsQuote l = true →
    (splitMaxP (fun c => c = ',') 3 (pyStripChar quoteC l).data).length < 3 →
    parseHeader l = none ∧ ChurnV2.parseLines getMod ls = none := by
  intro getMod ls l hmem hq hlen
  have hn : parseHeader l = none := by
    unfold parseHeader
    cases hraw : splitMaxP (fun c => c = ',') 3 (pyStripChar quoteC l).data with
    | nil => simp [hraw]
    | cons p0 t1 =>
      cases t1 with
      | nil => simp [hraw]
      | cons p1 t2 =>
        cases t2 with
        | nil => simp [hraw]
        | cons p2 t3 =>
          rw [hraw] at hlen
          simp at hlen
          omega
  refine ⟨hn, ?_⟩
  simp [ChurnV2.parseLines, ChurnV2.runFrom,
    ChurnV2.parseLinesFrom_bad_header getMod ls _ ⟨l, hmem, hq, hn⟩]

/-- Witness for C10 at a concrete one-field header. -/
theorem C10_witness :
    ((quoteS ++ "abc") ∈ [quoteS ++ "abc"] ∧ startsQuote (quoteS ++ "abc") = true ∧
      (splitMaxP (fun c => c = ',') 3
        (pyStripChar quoteC (quoteS ++ "abc")).data).length < 3) ∧
    parseHeader (quoteS ++ "abc") = none ∧
    ChurnV2.parseLines (fun _ => 0) [quoteS ++ "abc"] = none :=
  ⟨⟨by decide, by decide, by decide⟩,
   C10_short_header_aborts_parse (fun _ => 0) [quoteS ++ "abc"] (quoteS ++ "abc") (by decide)
     (by decide) (by decide)⟩

/-- C4: on well-formed input (every header line has at least three
comma-separated fields) the parse succeeds and returns exactly one record
per header line; decomposing the input into a header-free preamble and
header-led blocks, each record carries the sums of exactly the stat lines
of its own block (so stat lines between two headers belong to the
immediately preceding header); and empty input yields the empty record
list. -/
theorem C4_one_record_per_header :
    (∀ (getMod : String → Int) (ls : List String),
      (∀ l ∈ ls, startsQuote l = true → (parseHeader l).isSome = true) →
      ∃ recs, ChurnV2.parseLines getMod ls = some recs ∧
        recs.length = countHeaders ls) ∧
    (∀ (getMod : String → Int) (pre : List String)
      (blocks : List (String × List String)),
      (∀ l ∈ pre, startsQuote l = false) → (∀ b ∈ blocks, WfBlock b) →
      ChurnV2.parseLines getMod (pre ++ blocks.flatMap blockLines) =
        some (blocks.map (ChurnV2.specBlockRecord getMod))) ∧
    (∀ getMod : String → Int, ChurnV2.parse_git_log getMod "" = some []) := by
  refine ⟨?_, ?_, ?_⟩
  · intro getMod ls hwf
    obtain ⟨st2, hrun, hlen⟩ :=
      ChurnV2.parseLinesFrom_count getMod ls hwf ⟨[], none, 0, 0⟩
    refine ⟨ChurnV2.flushInfo getMod st2, ?_, ?_⟩
    · simp [ChurnV2.parseLines, ChurnV2.runFrom, hrun]
    · rw [ChurnV2.flushInfo_length]
      simpa [infoCount] using hlen
  · intro getMod pre blocks hpre hwf
    unfold ChurnV2.parseLines
    rw [ChurnV2.runFrom_append getMod
      (ChurnV2.parseLinesFrom_stats getMod pre hpre [] none 0 0)]
    rw [ChurnV2.runFrom_blocks getMod blocks hwf]
    simp [ChurnV2.flushInfo]
  · intro getMod
    rfl

/-- Witness for C4: the two-header scenario of the spec, a one-block
decomposition with a preamble, and the empty input. -/
theorem C4_witness :
    (∃ recs, ChurnV2.parseLines (fun _ => 0)
        [quoteS ++ "c1,d1,m1", "1\t2\tf1", "3\t4\tf2",
         quoteS ++ "c2,d2,m2", "5\t6\tf3"] = some recs ∧
      recs.length = countHeaders
        [quoteS ++ "c1,d1,m1", "1\t2\tf1", "3\t4\tf2",
         quoteS ++ "c2,d2,m2", "5\t6\tf3"]) ∧
    ChurnV2.parseLines (fun _ => 0)
        (["0\t0\tz"] ++
          ([(quoteS ++ "c1,d1,m1", ["1\t2\tf1"])].flatMap blockLines)) =
      some ([(quoteS ++ "c1,d1,m1", ["1\t2\tf1"])].map
        (ChurnV2.specBlockRecord (fun _ => 0))) ∧
    ChurnV2.parse_git_log (fun _ => 0) "" = some [] :=
  ⟨C4_one_record_per_header.1 (fun _ => 0)
     [quoteS ++ "c1,d1,m1", "1\t2\tf1", "3\t4\tf2",
      quoteS ++ "c2,d2,m2", "5\t6\tf3"] (by decide),
   C4_one_record_per_header.2.1 (fun _ => 0) ["0\t0\tz"]
     [(quoteS ++ "c1,d1,m1", ["1\t2\tf1"])] (by decide) (by decide),
   C4_one_record_per_header.2.2 (fun _ => 0)⟩

/-- C5: a non-header line that does not split into exactly three
tab-separated fields, or whose count fields are not parseable integers,
never aborts the parse: the step always succeeds, never touches the emitted
records or the open header, adds `safe_int` of each field (which is `0`
for an unparseable field) when there are exactly three fields, and a fully
malformed line is a no-op that can be deleted from the input without
changing the result. -/
theorem C5_malformed_stat_line_safe :
    ∀ (getMod : String → Int) (st : ChurnV2.ParseState) (l : String),
    startsQuote l = false →
    (ChurnV2.parseLine getMod st l).isSome = true ∧
    (∀ st2, ChurnV2.parseLine getMod st l = some st2 →
      st2.commit_data = st.commit_data ∧ st2.commit_info = st.commit_info) ∧
    ((splitTab l).length ≠ 3 → ChurnV2.parseLine getMod st l = some st) ∧
    (∀ a r f, splitTab l = [a, r, f] →
      ChurnV2.parseLine getMod st l =
        some ⟨st.commit_data, st.commit_info, st.total_added + safe_int a,
          st.total_removed + safe_int r⟩) ∧
    (∀ v, pyIntOfStr v = none → safe_int v = 0) ∧
    (∀ ls1 ls2, (splitTab l).length ≠ 3 →
      ChurnV2.parseLines getMod (ls1 ++ l :: ls2) =
        ChurnV2.parseLines getMod (ls1 ++ ls2)) := by
  intro getMod st l hq
  have hstep := ChurnV2.parseLine_stat getMod st l hq
  have hskip : ∀ (st0 : ChurnV2.ParseState), (splitTab l).length ≠ 3 →
      ChurnV2.parseLine getMod st0 l = some st0 := by
    intro st0 hne
    rw [ChurnV2.parseLine_stat getMod st0 l hq, statDelta_not3 hne]
    cases st0
    simp
  refine ⟨?_, ?_, ?_, ?_, ?_, ?_⟩
  · rw [hstep]
    rfl
  · intro st2 h2
    rw [hstep] at h2
    injection h2 with h3
    subst h3
    exact ⟨rfl, rfl⟩
  · exact hskip st
  · intro a r f hm
    rw [hstep]
    simp [statDelta, hm]
  · intro v hv
    simp [safe_int, hv]
  · intro ls1 ls2 hne
    unfold ChurnV2.parseLines ChurnV2.runFrom
    rw [ChurnV2.parseLinesFrom_append, ChurnV2.parseLinesFrom_append]
    cases hls1 : ChurnV2.parseLinesFrom getMod ⟨[], none, 0, 0⟩ ls1 with
    | none => simp
    | some stm => simp [ChurnV2.parseLinesFrom, hskip stm hne]

/-- Witness for C5 at the non-numeric stat line of spec scenario D. -/
theorem C5_witness :
    startsQuote "abc\tdef\tfile.txt" = false ∧
    ChurnV2.parseLine (fun _ => 0) ⟨[], none, 0, 0⟩ "abc\tdef\tfile.txt" =
      some ⟨[], none, 0 + safe_int "abc", 0 + safe_int "def"⟩ ∧
    safe_int "abc" = 0 :=
  ⟨by decide,
   (C5_malformed_stat_line_safe (fun _ => 0) ⟨[], none, 0, 0⟩
     "abc\tdef\tfile.txt" (by decide)).2.2.2.1 "abc" "def" "file.txt"
     (by decide),
   by decide⟩

/-- C3: when the parent query succeeds and reports exactly two parents,
`get_modified_lines` runs the diff between the first and second parent of
the merge (`commit^1..commit^2`) and returns the sum of added plus removed
over every well-formed stat line of that diff; with zero or one parent it
runs the single-parent diff (`commit^`) instead. -/
theorem C3_merge_diff_selection :
    ∀ (run : RunEnv) (commit_id : String) (res : RunResult),
    run (merge_check_command commit_id) = some res → res.returncode = 0 →
    (((parentsOf res.stdout).length = 2 →
      ∀ dres, run (two_parent_diff_command commit_id) = some dres →
        dres.returncode = 0 →
        get_modified_lines run commit_id = sumNumstat dres.stdout) ∧
     ((parentsOf res.stdout).length ≤ 1 →
      ∀ dres, run (single_parent_diff_command commit_id) = some dres →
        dres.returncode = 0 →
        get_modified_lines run commit_id = sumNumstat dres.stdout)) := by
  intro run commit_id res hmc hrc
  constructor
  · intro h2 dres hdr hdrc
    simp [get_modified_lines, hmc, hrc, diff_command_for, h2, hdr, hdrc]
  · intro h1 dres hdr hdrc
    have hne : (parentsOf res.stdout).length ≠ 2 := by omega
    simp [get_modified_lines, hmc, hrc, diff_command_for, hne, hdr, hdrc]

/-- Witness for C3: a two-parent commit takes the two-parent diff, a
one-parent commit the single-parent diff. -/
theorem C3_witness :
    get_modified_lines (fun cmd =>
      if cmd = merge_check_command "m" then some ⟨0, "p1 p2"⟩
      else if cmd = two_parent_diff_command "m" then some ⟨0, "1\t2\tf"⟩
      else none) "m" = sumNumstat "1\t2\tf" ∧
    get_modified_lines (fun cmd =>
      if cmd = merge_check_command "c" then some ⟨0, "p1"⟩
      else if cmd = single_parent_diff_command "c" then some ⟨0, "4\t2\tf"⟩
      else none) "c" = sumNumstat "4\t2\tf" :=
  ⟨(C3_merge_diff_selection (fun cmd =>
      if cmd = merge_check_command "m" then some ⟨0, "p1 p2"⟩
      else if cmd = two_parent_diff_command "m" then some ⟨0, "1\t2\tf"⟩
      else none) "m" ⟨0, "p1 p2"⟩ (by decide) (by decide)).1 (by decide)
      ⟨0, "1\t2\tf"⟩ (by decide) (by decide),
   (C3_merge_diff_selection (fun cmd =>
      if cmd = merge_check_command "c" then some ⟨0, "p1"⟩
      else if cmd = single_parent_diff_command "c" then some ⟨0, "4\t2\tf"⟩
      else none) "c" ⟨0, "p1"⟩ (by decide) (by decide)).2 (by decide)
      ⟨0, "4\t2\tf"⟩ (by decide) (by decide)⟩

/-- C6: every failure inside `get_modified_lines` — a raised exception or a
non-zero exit status of the parent query, or of the chosen diff command —
yields `0` for that commit instead of propagating (the function is total,
so a per-commit failure cannot abort the report). -/
theorem C6_subprocess_failure_yields_zero :
    ∀ (run : RunEnv) (commit_id : String),
    (run (merge_check_command commit_id) = none →
      get_modified_lines run commit_id = 0) ∧
    (∀ res, run (merge_check_command commit_id) = some res →
      res.returncode ≠ 0 → get_modified_lines run commit_id = 0) ∧
    (∀ res, run (merge_check_command commit_id) = some res →
      run (diff_command_for commit_id res.stdout) = none →
      get_modified_lines run commit_id = 0) ∧
    (∀ res dres, run (merge_check_command commit_id) = some res →
      run (diff_command_for commit_id res.stdout) = some dres →
      dres.returncode ≠ 0 → get_modified_lines run commit_id = 0) := by
  intro run commit_id
  refine ⟨?_, ?_, ?_, ?_⟩
  · intro h
    simp [get_modified_lines, h]
  · intro res h hrc
    simp [get_modified_lines, h, hrc]
  · intro res h hd
    by_cases hrc : res.returncode = 0
    · simp [get_modified_lines, h, hrc, hd]
    · simp [get_modified_lines, h, hrc]
  · intro res dres h hd hdrc
    by_cases hrc : res.returncode = 0
    · simp [get_modified_lines, h, hrc, hd, hdrc]
    · simp [get_modified_lines, h, hrc]

/-- Witness for C6: a failing diff and a raised parent query both yield
zero. -/
theorem C6_witness :
    get_modified_lines (fun cmd =>
      if cmd = merge_check_command "x" then some ⟨0, "p1"⟩
      else some ⟨1, ""⟩) "x" = 0 ∧
    get_modified_lines (fun _ => none) "y" = 0 :=
  ⟨(C6_subprocess_failure_yields_zero (fun cmd =>
      if cmd = merge_check_command "x" then some ⟨0, "p1"⟩
      else some ⟨1, ""⟩) "x").2.2.2 ⟨0, "p1"⟩ ⟨1, ""⟩ (by decide) (by decide)
      (by decide),
   (C6_subprocess_failure_yields_zero (fun _ => none) "y").1 rfl⟩

/-- C8: when the log subprocess exits non-zero, `get_git_log` raises (the
embedding returns `Except.error`) and `main` writes no CSV (the embedding
of `main` returns `none`). -/
theorem C8_log_fetch_failure_is_fatal :
    ∀ (run : RunEnv) (branch start_date end_date : String) (res : RunResult),
    run (git_log_command branch start_date end_date) = some res →
    res.returncode ≠ 0 →
    get_git_log run branch start_date end_date =
      Except.error "Error running git command" ∧
    ChurnV2.main_run run branch start_date end_date = none := by
  intro run b s e res h hrc
  have hg : get_git_log run b s e =
      Except.error "Error running git command" := by
    simp [get_git_log, h, hrc]
  exact ⟨hg, by simp [ChurnV2.main_run, hg]⟩

/-- Witness for C8 at a concrete always-failing environment. -/
theorem C8_witness :
    get_git_log (fun _ => some ⟨128, ""⟩) "main" "2024-01-01" "2024-06-30" =
      Except.error "Error running git command" ∧
    ChurnV2.main_run (fun _ => some ⟨128, ""⟩) "main" "2024-01-01"
      "2024-06-30" = none :=
  C8_log_fetch_failure_is_fatal (fun _ => some ⟨128, ""⟩) "main" "2024-01-01"
    "2024-06-30" ⟨128, ""⟩ rfl (by decide)

/-- C2 counterexample: `save_to_csv` of `scripts/code_churn.py` (one of the
two writers the claim covers) performs no sort, so with records given in
descending date order its data rows are not non-decreasing by date. -/
theorem C2_counterexample_scripts_writer_unsorted :
    ¬ List.Sorted
      (fun x y : List String => pyStrLe (x.getD 1 "") (y.getD 1 "") = true)
      ((ChurnScript.save_to_csv
        [⟨"b", "2024-02-02", "m", 1, 2⟩,
         ⟨"a", "2024-01-01", "m", 3, 4⟩]).drop 1) := by
  intro h
  have e : (ChurnScript.save_to_csv
      [⟨"b", "2024-02-02", "m", 1, 2⟩,
       ⟨"a", "2024-01-01", "m", 3, 4⟩]).drop 1 =
      [["b", "2024-02-02", "m", "1", "2"],
       ["a", "2024-01-01", "m", "3", "4"]] := by decide
  rw [e] at h
  have hle := (List.sorted_cons.mp h).1 _ (List.mem_cons_self _ _)
  exact absurd hle (by decide)

/-- C2 amended: only the writer of `code_churn_v2.py` sorts the records
ascending by date, so its data rows (whose date is column 1) are
non-decreasing by date; the `scripts/code_churn.py` writer emits the
records in their given order without sorting. -/
theorem C2_v2_writer_sorts_by_date :
    ∀ (data : List ChurnV2.CommitRecord)
      (dataS : List ChurnScript.CommitRecord),
    List.Sorted
      (fun x y : List String => pyStrLe (x.getD 1 "") (y.getD 1 "") = true)
      ((ChurnV2.save_to_csv data).drop 1) ∧
    ChurnScript.save_to_csv dataS =
      ChurnScript.csvHeader :: dataS.map ChurnScript.csvRow := by
  intro data dataS
  constructor
  · have hs : List.Sorted ChurnV2.dateRel
        (List.insertionSort ChurnV2.dateRel data) :=
      @List.sorted_insertionSort _ ChurnV2.dateRel _
        ⟨fun a b => pyStrLe_total a.date b.date⟩
        ⟨fun _ _ _ h1 h2 => pyStrLe_trans h1 h2⟩ data
    have hdrop : (ChurnV2.save_to_csv data).drop 1 =
        (List.insertionSort ChurnV2.dateRel data).map ChurnV2.csvRow := rfl
    rw [hdrop]
    exact List.Pairwise.map ChurnV2.csvRow (fun _ _ hab => hab) hs
  · rfl

/-- C7 counterexample: `safe_int` parses a negative numeral, so a crafted
stat line makes `parse_git_log` of `scripts/code_churn.py` produce a record
whose `added_lines` is negative — not a non-negative integer as claimed. -/
theorem C7_counterexample_negative_total :
    ChurnScript.parse_git_log
      (quoteS ++ "id,2024-01-01,msg\n-5\t1\tf.txt") =
      some [⟨"id", "2024-01-01", "msg", -5, 1⟩] ∧ ¬ (0 ≤ (-5 : Int)) :=
  ⟨by decide, by decide⟩

/-- C7 amended: for every commit record produced by `parse_git_log` of
`scripts/code_churn.py`, `added_lines` and `removed_lines` equal the
`safe_int` sums of the per-file stat fields of the stat lines of that
commit; the sums are non-negative whenever every parsed stat value is
non-negative (as with genuine numstat output), but a stat line carrying a
negative numeral yields a negative total. -/
theorem C7_totals_are_stat_sums :
    ∀ (blocks : List (String × List String)), (∀ b ∈ blocks, WfBlock b) →
    ChurnScript.parseLines (blocks.flatMap blockLines) =
      some (blocks.map ChurnScript.specBlockRecord) ∧
    ∀ b ∈ blocks,
      (∀ l ∈ b.2, 0 ≤ (statDelta l).1 ∧ 0 ≤ (statDelta l).2) →
      0 ≤ (ChurnScript.specBlockRecord b).added_lines ∧
      0 ≤ (ChurnScript.specBlockRecord b).removed_lines := by
  intro blocks hwf
  constructor
  · unfold ChurnScript.parseLines
    rw [ChurnScript.runFrom_blocksS blocks hwf]
    simp [ChurnScript.flushInfo]
  · intro b hb hpos
    obtain ⟨hq, hsome, hstats⟩ := hwf b hb
    obtain ⟨info, hinfo⟩ := Option.isSome_iff_exists.mp hsome
    have hrec : ChurnScript.specBlockRecord b =
        ⟨info.commit_id, info.date, info.message, sumAdded b.2,
         sumRemoved b.2⟩ := by
      simp [ChurnScript.specBlockRecord, hinfo]
    rw [hrec]
    refine ⟨List.sum_nonneg ?_, List.sum_nonneg ?_⟩
    · intro x hx
      obtain ⟨l, hl, rfl⟩ := List.mem_map.mp hx
      exact (hpos l hl).1
    · intro x hx
      obtain ⟨l, hl, rfl⟩ := List.mem_map.mp hx
      exact (hpos l hl).2

/-- Witness for C7 at a concrete one-block input. -/
theorem C7_witness :
    (∀ b ∈ [(quoteS ++ "c,d,m", ["1\t2\tf"])], WfBlock b) ∧
    (ChurnScript.parseLines
        ([(quoteS ++ "c,d,m", ["1\t2\tf"])].flatMap blockLines) =
      some ([(quoteS ++ "c,d,m", ["1\t2\tf"])].map
        ChurnScript.specBlockRecord) ∧
    ∀ b ∈ [(quoteS ++ "c,d,m", ["1\t2\tf"])],
      (∀ l ∈ b.2, 0 ≤ (statDelta l).1 ∧ 0 ≤ (statDelta l).2) →
      0 ≤ (ChurnScript.specBlockRecord b).added_lines ∧
      0 ≤ (ChurnScript.specBlockRecord b).removed_lines) :=
  ⟨by decide,
   C7_totals_are_stat_sums [(quoteS ++ "c,d,m", ["1\t2\tf"])] (by decide)⟩

end CodeTools
